import Mathlib

/-!
Shallow embedding of the `__UART__` driver class (src/UART.cpp, src/UART.h)
for the ATmega328/328P/328PB configuration selected by the source's
preprocessor conditionals.

Machine integers are modelled as `Nat` with explicit reduction (`% 256`,
`% 65536`, `% 4294967296`) at the points where the C code truncates, and
C unsigned wrap-around subtraction is written out explicitly.  The six
hardware registers bound by the constructor are modelled as byte-valued
fields of the driver state (UBRRnH, UBRRnL, UCSRnA, UCSRnB, UCSRnC, UDRn);
the global-interrupt flag (SREG I-bit, toggled by `sei()`) is the `gie`
field.  The two 64-byte ring buffers are modelled as total functions from
the index to the stored byte.

Bit positions are those of the ATmega328 I/O headers:
U2X0 = 1, UCSZ00 = 1, UCSZ01 = 2, TXEN0 = 3, RXEN0 = 4, UDRIE0 = 5,
RXCIE0 = 7.
-/

namespace UART

/-- UART_RX_BUFFER_SIZE from src/UART.h. -/
def UART_RX_BUFFER_SIZE : Nat := 64

/-- UART_TX_BUFFER_SIZE from src/UART.h. -/
def UART_TX_BUFFER_SIZE : Nat := 64

/-- Bit position of U2X0 in UCSR0A (ATmega328 header). -/
def U2X0 : Nat := 1

/-- Bit position of UCSZ00 in UCSR0C. -/
def UCSZ00 : Nat := 1

/-- Bit position of UCSZ01 in UCSR0C. -/
def UCSZ01 : Nat := 2

/-- Bit position of TXEN0 in UCSR0B. -/
def TXEN0 : Nat := 3

/-- Bit position of RXEN0 in UCSR0B. -/
def RXEN0 : Nat := 4

/-- Bit position of UDRIE0 in UCSR0B. -/
def UDRIE0 : Nat := 5

/-- Bit position of RXCIE0 in UCSR0B. -/
def RXCIE0 : Nat := 7

/-- The state of one `__UART__` driver instance together with the hardware
registers it is bound to.  Register fields hold the current byte value of
the register the corresponding pointer member points at. -/
structure UARTState where
  ubrrh : Nat
  ubrrl : Nat
  ucsra : Nat
  ucsrb : Nat
  ucsrc : Nat
  udr : Nat
  rxBuffer : Nat → Nat
  txBuffer : Nat → Nat
  rxHead : Nat
  rxTail : Nat
  txHead : Nat
  txTail : Nat
  began : Nat
  gie : Bool

/-- A driver instance as it exists right after construction.  `UART0` (and
`UART1`) are namespace-scope objects, so C++ zero-initializes their static
storage (ring buffers, the four indices, `began`) before the constructor
body runs; the constructor itself (src/UART.cpp lines 13-26) only stores
the six register pointers.  Hardware registers are taken at their reset
value 0. -/
def mkUART : UARTState :=
  { ubrrh := 0, ubrrl := 0, ucsra := 0, ucsrb := 0, ucsrc := 0, udr := 0
    rxBuffer := fun _ => 0, txBuffer := fun _ => 0
    rxHead := 0, rxTail := 0, txHead := 0, txTail := 0
    began := 0, gie := false }

/-- The first prescale computation of `begin` (src/UART.cpp line 55):
`uint16_t prescale = (F_CPU / 4 / baudrate - 1) / 2;`.  The expression is
evaluated in 32-bit unsigned arithmetic (the subtraction wraps modulo
2^32) and the assignment truncates to 16 bits. -/
def prescaleHi (F_CPU baudrate : Nat) : Nat :=
  ((F_CPU % 4294967296 / 4 / baudrate + 4294967295) % 4294967296 / 2) % 65536

/-- The fallback prescale computation of `begin` (src/UART.cpp line 62):
`prescale = (F_CPU / 8 / baudrate - 1) / 2;`, same integer semantics. -/
def prescaleLo (F_CPU baudrate : Nat) : Nat :=
  ((F_CPU % 4294967296 / 8 / baudrate + 4294967295) % 4294967296 / 2) % 65536

/-- `__UART__::begin` (src/UART.cpp lines 46-79), parametrized by the
compile-time constant `F_CPU`.  Returns the `uint8_t` result together with
the post-state.  `sei()` is the `gie := true` update. -/
def begin (F_CPU : Nat) (s : UARTState) (baudrate : Nat) : Nat × UARTState :=
  if s.began ≠ 0 then (0, s)
  else
    (1, { s with
          began := 1
          gie := true
          ucsra := if prescaleHi F_CPU baudrate > 0x0FFF then 0
                   else s.ucsra ||| (1 <<< U2X0)
          ubrrh := (if prescaleHi F_CPU baudrate > 0x0FFF then prescaleLo F_CPU baudrate
                    else prescaleHi F_CPU baudrate) / 256 % 256
          ubrrl := (if prescaleHi F_CPU baudrate > 0x0FFF then prescaleLo F_CPU baudrate
                    else prescaleHi F_CPU baudrate) % 256
          ucsrc := s.ucsrc ||| ((1 <<< UCSZ01) ||| (1 <<< UCSZ00))
          ucsrb := s.ucsrb ||| ((1 <<< RXEN0) ||| (1 <<< RXCIE0) ||| (1 <<< TXEN0)) })

/-- `__UART__::available` (src/UART.cpp lines 85-91).  The `ATOMIC_BLOCK`
is a critical section around the read of the index pair; in this
sequential model it has no further effect.  The arithmetic shown here
agrees with the C `int` arithmetic whenever both indices are below 64,
which the index invariant guarantees. -/
def available (s : UARTState) : Nat :=
  (UART_RX_BUFFER_SIZE + s.rxHead - s.rxTail) % UART_RX_BUFFER_SIZE

/-- `__UART__::flush` (src/UART.cpp lines 96-100):
`this->rxHead = this->rxTail;` inside an `ATOMIC_BLOCK`. -/
def flush (s : UARTState) : UARTState :=
  { s with rxHead := s.rxTail }

/-- `__UART__::isTransmitting` (src/UART.cpp lines 106-115):
`(*ucsrb & (1 << UDRIE0)) != 0`. -/
def isTransmitting (s : UARTState) : Bool :=
  (s.ucsrb &&& (1 <<< UDRIE0)) ≠ 0

/-- `__UART__::read` (src/UART.cpp lines 121-133).  Returns the `uint8_t`
result together with the post-state. -/
def read (s : UARTState) : Nat × UARTState :=
  if s.rxHead = s.rxTail then (0, s)
  else
    (s.rxBuffer s.rxTail,
     { s with rxTail := (s.rxTail + 1) % UART_RX_BUFFER_SIZE })

/-- `__UART__::write` (src/UART.cpp lines 161-176).  The busy-wait
`while (head == this->txTail);` spins until the consumer interrupt frees a
slot; this sequential model renders the state transition performed once
the wait has completed, which coincides with the source whenever the
buffer is not full (the only situation in which the wait body is ever
reached in the claims below).  The argument passes through the `uint8_t`
parameter, hence the `% 256`. -/
def write (s : UARTState) (n : Nat) : UARTState :=
  let head := (s.txHead + 1) % UART_TX_BUFFER_SIZE
  { s with
    txBuffer := Function.update s.txBuffer s.txHead (n % 256)
    txHead := head
    ucsrb := s.ucsrb ||| (1 <<< UDRIE0) }

/-- `__UART__::isrRX` (src/UART.cpp lines 567-571).  Reads the data
register and stores it at `rxHead`, advancing `rxHead` modulo 64 with no
full check. -/
def isrRX (s : UARTState) : UARTState :=
  { s with
    rxBuffer := Function.update s.rxBuffer s.rxHead s.udr
    rxHead := (s.rxHead + 1) % UART_RX_BUFFER_SIZE }

/-- One hardware receive event followed by the receive interrupt: the
hardware places the received byte in the 8-bit data register, then
`isrRX` runs. -/
def recv (b : Nat) (s : UARTState) : UARTState :=
  isrRX { s with udr := b % 256 }

/-- `__UART__::isrUDRE` (src/UART.cpp lines 583-600).  The first
component records the byte written to the data register, if any;
`~(1 << UDRIE0)` truncated to the 8-bit register is the mask 223. -/
def isrUDRE (s : UARTState) : Option Nat × UARTState :=
  if s.txHead ≠ s.txTail then
    (some (s.txBuffer s.txTail),
     { s with
       udr := s.txBuffer s.txTail
       txTail := (s.txTail + 1) % UART_TX_BUFFER_SIZE })
  else
    (none, { s with ucsrb := s.ucsrb &&& 223 })

/-- `__UART__::end` (src/UART.cpp lines 533-557).  The busy-wait
`while (this->isTransmitting());` completes once the UDRIE bit is clear;
as with `write`, the model renders the transition performed after the
wait.  `~((1<<UCSZ01)|(1<<UCSZ00))` truncated to 8 bits is 249 and
`~((1<<RXEN0)|(1<<RXCIE0)|(1<<TXEN0)|(1<<UDRIE0))` is 71. -/
def endUART (s : UARTState) : Nat × UARTState :=
  if s.began = 0 then (0, s)
  else
    let s1 := flush { s with began := 0 }
    (1, { s1 with
          ubrrh := 0
          ubrrl := 0
          ucsra := 0
          ucsrc := s1.ucsrc &&& 249
          ucsrb := s1.ucsrb &&& 71 })

/-- `__UART__::print(const uint8_t)` (src/UART.cpp lines 247-252), as the
sequence of bytes handed to `write`; 48 is the ASCII code of the digit
zero. -/
def printU8 (n : Nat) : List Nat :=
  (if n > 99 then [n / 100 % 10 + 48] else []) ++
  (if n > 9 then [n / 10 % 10 + 48] else []) ++
  [n % 10 + 48]

/-- `__UART__::print(const uint16_t)` (src/UART.cpp lines 266-273). -/
def printU16 (n : Nat) : List Nat :=
  (if n > 9999 then [n / 10000 % 10 + 48] else []) ++
  (if n > 999 then [n / 1000 % 10 + 48] else []) ++
  (if n > 99 then [n / 100 % 10 + 48] else []) ++
  (if n > 9 then [n / 10 % 10 + 48] else []) ++
  [n % 10 + 48]

/-- `__UART__::print(const uint32_t)` (src/UART.cpp lines 292-304). -/
def printU32 (n : Nat) : List Nat :=
  (if n > 999999999 then [n / 1000000000 % 10 + 48] else []) ++
  (if n > 99999999 then [n / 100000000 % 10 + 48] else []) ++
  (if n > 9999999 then [n / 10000000 % 10 + 48] else []) ++
  (if n > 999999 then [n / 1000000 % 10 + 48] else []) ++
  (if n > 99999 then [n / 100000 % 10 + 48] else []) ++
  (if n > 9999 then [n / 10000 % 10 + 48] else []) ++
  (if n > 999 then [n / 1000 % 10 + 48] else []) ++
  (if n > 99 then [n / 100 % 10 + 48] else []) ++
  (if n > 9 then [n / 10 % 10 + 48] else []) ++
  [n % 10 + 48]

/-- `__UART__::print(const int8_t)` (src/UART.cpp lines 316-325): a '-'
(ASCII 45) followed by `print((uint8_t)(-n))` for negative input,
`print((uint8_t)n)` otherwise; the cast to the unsigned parameter reduces
modulo 256. -/
def printI8 (n : Int) : List Nat :=
  if n < 0 then 45 :: printU8 ((-n).toNat % 256)
  else printU8 (n.toNat % 256)

/-- `__UART__::print(const int16_t)` (src/UART.cpp lines 337-346). -/
def printI16 (n : Int) : List Nat :=
  if n < 0 then 45 :: printU16 ((-n).toNat % 65536)
  else printU16 (n.toNat % 65536)

/-- `__UART__::print(const int32_t)` (src/UART.cpp lines 358-367).  For
the most negative value the C negation wraps, and the value cast to
`uint32_t` is again 2147483648 = |INT32_MIN| modulo 2^32, which the
`% 4294967296` reproduces. -/
def printI32 (n : Int) : List Nat :=
  if n < 0 then 45 :: printU32 ((-n).toNat % 4294967296)
  else printU32 (n.toNat % 4294967296)

/-- Deliver a whole byte sequence through the receive path: one hardware
event plus `isrRX` per byte, oldest first. -/
def rxFill (s : UARTState) (bs : List Nat) : UARTState :=
  bs.foldl (fun t b => recv b t) s

/-- Perform `k` consecutive `read()` calls, collecting the returned
bytes in call order. -/
def readN : Nat → UARTState → List Nat × UARTState
  | 0, s => ([], s)
  | k + 1, s =>
    let p := read s
    let q := readN k p.2
    (p.1 :: q.1, q.2)

/-- Perform `k` consecutive `write()` calls, oldest byte first. -/
def txFill (s : UARTState) (bs : List Nat) : UARTState :=
  bs.foldl write s

/-- Fire the data-register-empty interrupt `k` times, collecting every
byte the handler writes to the data register, in order. -/
def udreN : Nat → UARTState → List Nat × UARTState
  | 0, s => ([], s)
  | k + 1, s =>
    let p := isrUDRE s
    let q := udreN k p.2
    (match p.1 with
     | some b => b :: q.1
     | none => q.1, q.2)

/-- Occupancy of the RX ring buffer, the same expression `available`
computes. -/
def rxCount (s : UARTState) : Nat :=
  (64 + s.rxHead - s.rxTail) % 64

/-- Abstraction of the RX ring buffer to the byte sequence it currently
holds, oldest (at `rxTail`) first. -/
def rxQueue (s : UARTState) : List Nat :=
  (List.range (rxCount s)).map (fun i => s.rxBuffer ((s.rxTail + i) % 64))

/-- Occupancy of the TX ring buffer. -/
def txCount (s : UARTState) : Nat :=
  (64 + s.txHead - s.txTail) % 64

/-- Abstraction of the TX ring buffer to the byte sequence it currently
holds, oldest (at `txTail`) first. -/
def txQueue (s : UARTState) : List Nat :=
  (List.range (txCount s)).map (fun i => s.txBuffer ((s.txTail + i) % 64))

/-- Modelled from the spec: the decimal ASCII representation of a natural
number, with no leading zeros and a single '0' (ASCII 48) for zero.  Used
as the comparison point for the numeric print overloads. -/
def decAscii (n : Nat) : List Nat :=
  if n = 0 then [48]
  else ((Nat.digits 10 n).map (fun d => d + 48)).reverse

/-- Modelled from the spec: the decimal ASCII representation of an
integer, a leading '-' (ASCII 45) followed by the digits of the absolute
value when negative. -/
def decAsciiInt (i : Int) : List Nat :=
  if i < 0 then 45 :: decAscii (-i).toNat
  else decAscii i.toNat

/-- All four ring-buffer indices lie in [0, 64). -/
def idxInv (s : UARTState) : Prop :=
  s.rxHead < 64 ∧ s.rxTail < 64 ∧ s.txHead < 64 ∧ s.txTail < 64

instance (s : UARTState) : Decidable (idxInv s) := by
  unfold idxInv
  infer_instance

/-- A concrete driver state with a non-empty RX buffer:
rxHead = 5, rxTail = 2, all other fields as freshly constructed. -/
def rxSample : UARTState :=
  { mkUART with rxHead := 5, rxTail := 2 }

/-- A concrete driver state whose lifecycle flag is Running. -/
def ranSample : UARTState :=
  { mkUART with began := 1 }

/-- A concrete driver state with a non-empty TX buffer. -/
def txSample : UARTState :=
  { mkUART with txHead := 3, ucsrb := 255 }


lemma sndPair {α : Type} (a : α) (t : UARTState) : ((a, t) : α × UARTState).2 = t := rfl

lemma begin_already (F baud : Nat) (s : UARTState) (hb : s.began ≠ 0) :
    begin F s baud = (0, s) := by
  unfold begin
  rw [if_pos hb]

lemma begin_go (F baud : Nat) (s : UARTState) (hb : ¬ s.began ≠ 0) :
    begin F s baud = (1, { s with
      began := 1
      gie := true
      ucsra := if prescaleHi F baud > 0x0FFF then 0
               else s.ucsra ||| (1 <<< U2X0)
      ubrrh := (if prescaleHi F baud > 0x0FFF then prescaleLo F baud
                else prescaleHi F baud) / 256 % 256
      ubrrl := (if prescaleHi F baud > 0x0FFF then prescaleLo F baud
                else prescaleHi F baud) % 256
      ucsrc := s.ucsrc ||| ((1 <<< UCSZ01) ||| (1 <<< UCSZ00))
      ucsrb := s.ucsrb ||| ((1 <<< RXEN0) ||| (1 <<< RXCIE0) ||| (1 <<< TXEN0)) }) := by
  unfold begin
  rw [if_neg hb]

lemma endUART_stopped (s : UARTState) (hb : s.began = 0) : endUART s = (0, s) := by
  unfold endUART
  rw [if_pos hb]

lemma endUART_go (s : UARTState) (hb : ¬ s.began = 0) :
    endUART s = (1, { s with
      began := 0
      rxHead := s.rxTail
      ubrrh := 0
      ubrrl := 0
      ucsra := 0
      ucsrc := s.ucsrc &&& 249
      ucsrb := s.ucsrb &&& 71 }) := by
  unfold endUART flush
  rw [if_neg hb]

lemma read_empty_eq (s : UARTState) (hb : s.rxHead = s.rxTail) : read s = (0, s) := by
  unfold read
  rw [if_pos hb]

lemma read_nonempty_eq (s : UARTState) (hb : ¬ s.rxHead = s.rxTail) :
    read s = (s.rxBuffer s.rxTail,
      { s with rxTail := (s.rxTail + 1) % 64 }) := by
  unfold read
  rw [if_neg hb]
  rfl

lemma udre_nonempty_eq (s : UARTState) (hb : s.txHead ≠ s.txTail) :
    isrUDRE s = (some (s.txBuffer s.txTail),
      { s with udr := s.txBuffer s.txTail, txTail := (s.txTail + 1) % 64 }) := by
  unfold isrUDRE
  rw [if_pos hb]
  rfl

lemma udre_empty_eq (s : UARTState) (hb : ¬ s.txHead ≠ s.txTail) :
    isrUDRE s = (none, { s with ucsrb := s.ucsrb &&& 223 }) := by
  unfold isrUDRE
  rw [if_neg hb]

lemma rxCount_empty (s : UARTState) (h : s.rxHead = s.rxTail) : rxCount s = 0 := by
  show (64 + s.rxHead - s.rxTail) % 64 = 0
  omega

lemma rxQueue_empty (s : UARTState) (h : s.rxHead = s.rxTail) : rxQueue s = [] := by
  unfold rxQueue
  rw [rxCount_empty s h]
  rfl

lemma recv_count (s : UARTState) (b : Nat) (hh : s.rxHead < 64) (ht : s.rxTail < 64)
    (hc : rxCount s < 63) : rxCount (recv b s) = rxCount s + 1 := by
  have hc' : (64 + s.rxHead - s.rxTail) % 64 < 63 := hc
  show (64 + (s.rxHead + 1) % 64 - s.rxTail) % 64 = (64 + s.rxHead - s.rxTail) % 64 + 1
  omega

lemma recv_queue (s : UARTState) (b : Nat) (hh : s.rxHead < 64) (ht : s.rxTail < 64)
    (hc : rxCount s < 63) : rxQueue (recv b s) = rxQueue s ++ [b % 256] := by
  have hc' : (64 + s.rxHead - s.rxTail) % 64 < 63 := hc
  unfold rxQueue
  rw [recv_count s b hh ht hc]
  rw [List.range_succ, List.map_append]
  congr 1
  · refine List.map_congr_left ?_
    intro i hi
    rw [List.mem_range] at hi
    have hi' : i < (64 + s.rxHead - s.rxTail) % 64 := hi
    show Function.update s.rxBuffer s.rxHead (b % 256) ((s.rxTail + i) % 64)
        = s.rxBuffer ((s.rxTail + i) % 64)
    exact Function.update_noteq (by omega) _ _
  · show [Function.update s.rxBuffer s.rxHead (b % 256) ((s.rxTail + rxCount s) % 64)]
        = [b % 256]
    have harg : (s.rxTail + rxCount s) % 64 = s.rxHead := by
      have hcc : rxCount s = (64 + s.rxHead - s.rxTail) % 64 := rfl
      omega
    rw [harg, Function.update_same]

lemma read_pos (s : UARTState) (hh : s.rxHead < 64) (ht : s.rxTail < 64)
    (hc : 0 < rxCount s) :
    read s = (s.rxBuffer s.rxTail, { s with rxTail := (s.rxTail + 1) % 64 }) := by
  have hc' : 0 < (64 + s.rxHead - s.rxTail) % 64 := hc
  have hne : ¬ s.rxHead = s.rxTail := by omega
  unfold read
  rw [if_neg hne]
  rfl

lemma read_count (s : UARTState) (hh : s.rxHead < 64) (ht : s.rxTail < 64)
    (hc : 0 < rxCount s) :
    rxCount { s with rxTail := (s.rxTail + 1) % 64 } = rxCount s - 1 := by
  have hc' : 0 < (64 + s.rxHead - s.rxTail) % 64 := hc
  show (64 + s.rxHead - (s.rxTail + 1) % 64) % 64 = (64 + s.rxHead - s.rxTail) % 64 - 1
  omega

lemma read_queue (s : UARTState) (hh : s.rxHead < 64) (ht : s.rxTail < 64)
    (hc : 0 < rxCount s) :
    rxQueue s = s.rxBuffer s.rxTail :: rxQueue { s with rxTail := (s.rxTail + 1) % 64 } := by
  obtain ⟨c, hcc⟩ : ∃ c, rxCount s = c + 1 := ⟨rxCount s - 1, by omega⟩
  have h2 : rxCount { s with rxTail := (s.rxTail + 1) % 64 } = c := by
    rw [read_count s hh ht hc, hcc]
    omega
  unfold rxQueue
  rw [hcc, h2, List.range_succ_eq_map, List.map_cons, List.map_map]
  congr 1
  · show s.rxBuffer ((s.rxTail + 0) % 64) = s.rxBuffer s.rxTail
    congr 1
    omega
  · refine List.map_congr_left ?_
    intro i hi
    rw [List.mem_range] at hi
    show s.rxBuffer ((s.rxTail + (i + 1)) % 64)
        = s.rxBuffer (((s.rxTail + 1) % 64 + i) % 64)
    congr 1
    omega

lemma readN_drain : ∀ (n : Nat) (s : UARTState), s.rxHead < 64 → s.rxTail < 64 →
    rxCount s = n → (readN n s).1 = rxQueue s := by
  intro n
  induction n with
  | zero =>
    intro s hh ht hc
    rw [rxQueue, hc]
    rfl
  | succ k ih =>
    intro s hh ht hc
    have hpos : 0 < rxCount s := by omega
    have hr := read_pos s hh ht hpos
    show ((read s).1 :: (readN k (read s).2).1, (readN k (read s).2).2).1 = rxQueue s
    rw [hr, read_queue s hh ht hpos]
    show s.rxBuffer s.rxTail :: (readN k { s with rxTail := (s.rxTail + 1) % 64 }).1 = _
    congr 1
    refine ih _ hh ?_ ?_
    · show (s.rxTail + 1) % 64 < 64
      omega
    · rw [read_count s hh ht hpos, hc]
      omega

lemma rxFill_spec : ∀ (bs : List Nat) (s : UARTState), s.rxHead < 64 → s.rxTail < 64 →
    rxCount s + bs.length ≤ 63 →
    (rxFill s bs).rxHead < 64 ∧ (rxFill s bs).rxTail < 64 ∧
    rxCount (rxFill s bs) = rxCount s + bs.length ∧
    rxQueue (rxFill s bs) = rxQueue s ++ bs.map (fun b => b % 256) := by
  intro bs
  induction bs with
  | nil =>
    intro s hh ht _
    exact ⟨hh, ht, by simp [rxFill], by simp [rxFill]⟩
  | cons b bs ih =>
    intro s hh ht hle
    have hle' : rxCount s + (bs.length + 1) ≤ 63 := by simpa using hle
    have hc : rxCount s < 63 := by omega
    have h1 := recv_count s b hh ht hc
    have h2 := recv_queue s b hh ht hc
    have hh' : (recv b s).rxHead < 64 := by
      show (s.rxHead + 1) % 64 < 64
      omega
    have ht' : (recv b s).rxTail < 64 := ht
    have hstep : rxFill s (b :: bs) = rxFill (recv b s) bs := rfl
    rw [hstep]
    obtain ⟨a1, a2, a3, a4⟩ := ih (recv b s) hh' ht' (by rw [h1]; omega)
    refine ⟨a1, a2, ?_, ?_⟩
    · rw [a3, h1]
      simp
      omega
    · rw [a4, h2]
      simp

lemma txCount_empty (s : UARTState) (h : s.txHead = s.txTail) : txCount s = 0 := by
  show (64 + s.txHead - s.txTail) % 64 = 0
  omega

lemma txQueue_empty (s : UARTState) (h : s.txHead = s.txTail) : txQueue s = [] := by
  unfold txQueue
  rw [txCount_empty s h]
  rfl

lemma write_count (s : UARTState) (n : Nat) (hh : s.txHead < 64) (ht : s.txTail < 64)
    (hc : txCount s < 63) : txCount (write s n) = txCount s + 1 := by
  have hc' : (64 + s.txHead - s.txTail) % 64 < 63 := hc
  show (64 + (s.txHead + 1) % 64 - s.txTail) % 64 = (64 + s.txHead - s.txTail) % 64 + 1
  omega

lemma write_queue (s : UARTState) (n : Nat) (hh : s.txHead < 64) (ht : s.txTail < 64)
    (hc : txCount s < 63) : txQueue (write s n) = txQueue s ++ [n % 256] := by
  have hc' : (64 + s.txHead - s.txTail) % 64 < 63 := hc
  unfold txQueue
  rw [write_count s n hh ht hc]
  rw [List.range_succ, List.map_append]
  congr 1
  · refine List.map_congr_left ?_
    intro i hi
    rw [List.mem_range] at hi
    have hi' : i < (64 + s.txHead - s.txTail) % 64 := hi
    show Function.update s.txBuffer s.txHead (n % 256) ((s.txTail + i) % 64)
        = s.txBuffer ((s.txTail + i) % 64)
    exact Function.update_noteq (by omega) _ _
  · show [Function.update s.txBuffer s.txHead (n % 256) ((s.txTail + txCount s) % 64)]
        = [n % 256]
    have harg : (s.txTail + txCount s) % 64 = s.txHead := by
      have hcc : txCount s = (64 + s.txHead - s.txTail) % 64 := rfl
      omega
    rw [harg, Function.update_same]

lemma udre_pos (s : UARTState) (hh : s.txHead < 64) (ht : s.txTail < 64)
    (hc : 0 < txCount s) :
    isrUDRE s = (some (s.txBuffer s.txTail),
      { s with udr := s.txBuffer s.txTail, txTail := (s.txTail + 1) % 64 }) := by
  have hc' : 0 < (64 + s.txHead - s.txTail) % 64 := hc
  have hne : s.txHead ≠ s.txTail := by omega
  unfold isrUDRE
  rw [if_pos hne]
  rfl

lemma udre_count (s : UARTState) (hh : s.txHead < 64) (ht : s.txTail < 64)
    (hc : 0 < txCount s) :
    txCount { s with udr := s.txBuffer s.txTail, txTail := (s.txTail + 1) % 64 }
      = txCount s - 1 := by
  have hc' : 0 < (64 + s.txHead - s.txTail) % 64 := hc
  show (64 + s.txHead - (s.txTail + 1) % 64) % 64 = (64 + s.txHead - s.txTail) % 64 - 1
  omega

lemma udre_queue (s : UARTState) (hh : s.txHead < 64) (ht : s.txTail < 64)
    (hc : 0 < txCount s) :
    txQueue s = s.txBuffer s.txTail ::
      txQueue { s with udr := s.txBuffer s.txTail, txTail := (s.txTail + 1) % 64 } := by
  obtain ⟨c, hcc⟩ : ∃ c, txCount s = c + 1 := ⟨txCount s - 1, by omega⟩
  have h2 : txCount { s with udr := s.txBuffer s.txTail, txTail := (s.txTail + 1) % 64 }
      = c := by
    rw [udre_count s hh ht hc, hcc]
    omega
  unfold txQueue
  rw [hcc, h2, List.range_succ_eq_map, List.map_cons, List.map_map]
  congr 1
  · show s.txBuffer ((s.txTail + 0) % 64) = s.txBuffer s.txTail
    congr 1
    omega
  · refine List.map_congr_left ?_
    intro i hi
    rw [List.mem_range] at hi
    show s.txBuffer ((s.txTail + (i + 1)) % 64)
        = s.txBuffer (((s.txTail + 1) % 64 + i) % 64)
    congr 1
    omega

lemma udreN_drain : ∀ (n : Nat) (s : UARTState), s.txHead < 64 → s.txTail < 64 →
    txCount s = n → (udreN n s).1 = txQueue s := by
  intro n
  induction n with
  | zero =>
    intro s hh ht hc
    rw [txQueue, hc]
    rfl
  | succ k ih =>
    intro s hh ht hc
    have hpos : 0 < txCount s := by omega
    have hr := udre_pos s hh ht hpos
    simp only [udreN]
    rw [hr, udre_queue s hh ht hpos]
    show s.txBuffer s.txTail ::
        (udreN k { s with udr := s.txBuffer s.txTail, txTail := (s.txTail + 1) % 64 }).1 = _
    congr 1
    refine ih _ hh ?_ ?_
    · show (s.txTail + 1) % 64 < 64
      omega
    · rw [udre_count s hh ht hpos, hc]
      omega

lemma txFill_spec : ∀ (bs : List Nat) (s : UARTState), s.txHead < 64 → s.txTail < 64 →
    txCount s + bs.length ≤ 63 →
    (txFill s bs).txHead < 64 ∧ (txFill s bs).txTail < 64 ∧
    txCount (txFill s bs) = txCount s + bs.length ∧
    txQueue (txFill s bs) = txQueue s ++ bs.map (fun b => b % 256) := by
  intro bs
  induction bs with
  | nil =>
    intro s hh ht _
    exact ⟨hh, ht, by simp [txFill], by simp [txFill]⟩
  | cons b bs ih =>
    intro s hh ht hle
    have hle' : txCount s + (bs.length + 1) ≤ 63 := by simpa using hle
    have hc : txCount s < 63 := by omega
    have h1 := write_count s b hh ht hc
    have h2 := write_queue s b hh ht hc
    have hh' : (write s b).txHead < 64 := by
      show (s.txHead + 1) % 64 < 64
      omega
    have ht' : (write s b).txTail < 64 := ht
    have hstep : txFill s (b :: bs) = txFill (write s b) bs := rfl
    rw [hstep]
    obtain ⟨a1, a2, a3, a4⟩ := ih (write s b) hh' ht' (by rw [h1]; omega)
    refine ⟨a1, a2, ?_, ?_⟩
    · rw [a3, h1]
      simp
      omega
    · rw [a4, h2]
      simp

/-- C1: for every ring buffer starting empty and every sequence of `k`
bytes with `k ≤ 63`, `k` pushes followed by `k` pops return exactly the
pushed byte sequence in order: on the RX side `k` receptions through
`isrRX` followed by `k` `read()` calls, on the TX side `k` `write()`
calls followed by `k` data-register emissions through `isrUDRE`. -/
theorem C1_fifo_order :
    (∀ (bs : List Nat) (s : UARTState),
      s.rxHead < 64 → s.rxTail < 64 → s.rxHead = s.rxTail →
      bs.length ≤ 63 → (∀ b ∈ bs, b < 256) →
      (readN bs.length (rxFill s bs)).1 = bs) ∧
    (∀ (bs : List Nat) (s : UARTState),
      s.txHead < 64 → s.txTail < 64 → s.txHead = s.txTail →
      bs.length ≤ 63 → (∀ b ∈ bs, b < 256) →
      (udreN bs.length (txFill s bs)).1 = bs) := by
  constructor
  · intro bs s hh ht he hlen hb
    have h0 : rxCount s = 0 := rxCount_empty s he
    obtain ⟨a1, a2, a3, a4⟩ := rxFill_spec bs s hh ht (by rw [h0]; omega)
    rw [readN_drain bs.length (rxFill s bs) a1 a2 (by rw [a3, h0]; omega)]
    rw [a4, rxQueue_empty s he]
    have hmap : bs.map (fun b => b % 256) = bs := by
      have hid : bs.map (fun b => b % 256) = bs.map id :=
        List.map_congr_left (fun b hbm => Nat.mod_eq_of_lt (hb b hbm))
      rw [hid, List.map_id]
    rw [List.nil_append, hmap]
  · intro bs s hh ht he hlen hb
    have h0 : txCount s = 0 := txCount_empty s he
    obtain ⟨a1, a2, a3, a4⟩ := txFill_spec bs s hh ht (by rw [h0]; omega)
    rw [udreN_drain bs.length (txFill s bs) a1 a2 (by rw [a3, h0]; omega)]
    rw [a4, txQueue_empty s he]
    have hmap : bs.map (fun b => b % 256) = bs := by
      have hid : bs.map (fun b => b % 256) = bs.map id :=
        List.map_congr_left (fun b hbm => Nat.mod_eq_of_lt (hb b hbm))
      rw [hid, List.map_id]
    rw [List.nil_append, hmap]

lemma prescaleHi_eq (F baud : Nat) (h0 : 0 < baud) (hge : 4 * baud ≤ F)
    (hF : F < 4294967296) (hfit : (F / (4 * baud) - 1) / 2 < 65536) :
    prescaleHi F baud = (F / (4 * baud) - 1) / 2 := by
  unfold prescaleHi
  rw [Nat.mod_eq_of_lt hF, Nat.div_div_eq_div_mul]
  have hq1 : 1 ≤ F / (4 * baud) := by
    rw [Nat.le_div_iff_mul_le (by omega : 0 < 4 * baud)]
    omega
  have hq2 : F / (4 * baud) ≤ F := Nat.div_le_self _ _
  generalize hq : F / (4 * baud) = q at hq1 hq2 hfit ⊢
  omega

lemma prescaleLo_eq (F baud : Nat) (hF : F < 4294967296)
    (hq9 : 8193 ≤ F / (4 * baud)) (hfit : (F / (4 * baud) - 1) / 2 < 65536) :
    prescaleLo F baud = (F / (8 * baud) - 1) / 2 := by
  unfold prescaleLo
  rw [Nat.mod_eq_of_lt hF, Nat.div_div_eq_div_mul]
  have e2 : F / (8 * baud) = F / (4 * baud) / 2 := by
    rw [Nat.div_div_eq_div_mul]
    congr 1
    ring
  rw [e2]
  have hq2 : F / (4 * baud) ≤ F := Nat.div_le_self _ _
  generalize hq : F / (4 * baud) = q at hq9 hq2 hfit ⊢
  omega

/-- C2: for clock `F` and requested baud `B`, `begin` computes the divisor
`(F/(4*B) - 1)/2`; when it exceeds 0x0FFF it instead uses
`(F/(8*B) - 1)/2` and disables double-speed mode (UCSR0A is written 0),
otherwise it keeps the first divisor and enables double-speed mode
(U2X0 is set); the chosen divisor's high byte lands in the baud-high
register, its low byte in the baud-low register.  Stated for a stopped
driver, a representable clock, a nonzero baud with `4*B ≤ F`, and a first
divisor that fits the 16-bit prescale variable. -/
theorem C2_baud_divisor (F baud : Nat) (s : UARTState)
    (hbg : s.began = 0) (h0 : 0 < baud) (hge : 4 * baud ≤ F)
    (hF : F < 4294967296) (hfit : (F / (4 * baud) - 1) / 2 < 65536) :
    (begin F s baud).1 = 1 ∧
    ((F / (4 * baud) - 1) / 2 ≤ 0x0FFF →
      (begin F s baud).2.ubrrh = ((F / (4 * baud) - 1) / 2) / 256 ∧
      (begin F s baud).2.ubrrl = ((F / (4 * baud) - 1) / 2) % 256 ∧
      (begin F s baud).2.ucsra = (s.ucsra ||| 2) ∧
      ((begin F s baud).2.ucsra).testBit 1 = true) ∧
    (0x0FFF < (F / (4 * baud) - 1) / 2 →
      (begin F s baud).2.ubrrh = ((F / (8 * baud) - 1) / 2) / 256 ∧
      (begin F s baud).2.ubrrl = ((F / (8 * baud) - 1) / 2) % 256 ∧
      (begin F s baud).2.ucsra = 0) := by
  have hp1 := prescaleHi_eq F baud h0 hge hF hfit
  have hnb : ¬ (s.began ≠ 0) := not_not_intro hbg
  refine ⟨?_, ?_, ?_⟩
  · unfold begin
    rw [if_neg hnb]
  · intro hle
    have hif : ¬ (prescaleHi F baud > 0x0FFF) := by omega
    unfold begin
    rw [if_neg hnb]
    simp only [if_neg hif]
    refine ⟨?_, ?_, rfl, ?_⟩
    · show prescaleHi F baud / 256 % 256 = ((F / (4 * baud) - 1) / 2) / 256
      rw [hp1, Nat.mod_eq_of_lt (by omega : ((F / (4 * baud) - 1) / 2) / 256 < 256)]
    · show prescaleHi F baud % 256 = ((F / (4 * baud) - 1) / 2) % 256
      rw [hp1]
    · show (s.ucsra ||| 2).testBit 1 = true
      simp [Nat.testBit_lor]
      exact Or.inr (by decide)
  · intro hgt
    have hif : prescaleHi F baud > 0x0FFF := by omega
    have hq9 : 8193 ≤ F / (4 * baud) := by
      have hq1 : 1 ≤ F / (4 * baud) := by
        rw [Nat.le_div_iff_mul_le (by omega : 0 < 4 * baud)]
        omega
      generalize hq : F / (4 * baud) = q at hgt hq1 ⊢
      omega
    have hp2 := prescaleLo_eq F baud hF hq9 hfit
    have hfit2 : (F / (8 * baud) - 1) / 2 < 65536 := by
      have e2 : F / (8 * baud) = F / (4 * baud) / 2 := by
        rw [Nat.div_div_eq_div_mul]
        congr 1
        ring
      rw [e2]
      generalize hq : F / (4 * baud) = q at hfit hq9 ⊢
      omega
    unfold begin
    rw [if_neg hnb]
    simp only [if_pos hif]
    refine ⟨?_, ?_, ?_⟩
    case refine_3 => trivial
    · show prescaleLo F baud / 256 % 256 = ((F / (8 * baud) - 1) / 2) / 256
      rw [hp2, Nat.mod_eq_of_lt (by omega : ((F / (8 * baud) - 1) / 2) / 256 < 256)]
    · show prescaleLo F baud % 256 = ((F / (8 * baud) - 1) / 2) % 256
      rw [hp2]

/-- Instantiation of `C2_baud_divisor` at a 16 MHz clock and 9600 baud. -/
theorem C2_baud_divisor_witness :
    (begin 16000000 mkUART 9600).1 = 1 ∧
    ((16000000 / (4 * 9600) - 1) / 2 ≤ 0x0FFF →
      (begin 16000000 mkUART 9600).2.ubrrh = ((16000000 / (4 * 9600) - 1) / 2) / 256 ∧
      (begin 16000000 mkUART 9600).2.ubrrl = ((16000000 / (4 * 9600) - 1) / 2) % 256 ∧
      (begin 16000000 mkUART 9600).2.ucsra = (mkUART.ucsra ||| 2) ∧
      ((begin 16000000 mkUART 9600).2.ucsra).testBit 1 = true) ∧
    (0x0FFF < (16000000 / (4 * 9600) - 1) / 2 →
      (begin 16000000 mkUART 9600).2.ubrrh = ((16000000 / (8 * 9600) - 1) / 2) / 256 ∧
      (begin 16000000 mkUART 9600).2.ubrrl = ((16000000 / (8 * 9600) - 1) / 2) % 256 ∧
      (begin 16000000 mkUART 9600).2.ucsra = 0) :=
  C2_baud_divisor 16000000 9600 mkUART rfl (by decide) (by decide) (by decide) (by decide)

/-- Instantiation of `C1_fifo_order` at concrete inputs. -/
theorem C1_fifo_order_witness :
    (readN 3 (rxFill mkUART [10, 0, 255])).1 = [10, 0, 255] ∧
    (udreN 3 (txFill mkUART [65, 66, 67])).1 = [65, 66, 67] := by
  constructor
  · exact C1_fifo_order.1 [10, 0, 255] mkUART (by decide) (by decide) rfl (by decide)
      (by decide)
  · exact C1_fifo_order.2 [65, 66, 67] mkUART (by decide) (by decide) rfl (by decide)
      (by decide)

lemma rxFill_idx : ∀ (bs : List Nat) (s : UARTState), s.rxHead < 64 →
    (rxFill s bs).rxHead = (s.rxHead + bs.length) % 64 ∧
    (rxFill s bs).rxTail = s.rxTail := by
  intro bs
  induction bs with
  | nil =>
    intro s hh
    constructor
    · show s.rxHead = (s.rxHead + 0) % 64
      omega
    · rfl
  | cons b bs ih =>
    intro s hh
    have hh' : (recv b s).rxHead < 64 := by
      show (s.rxHead + 1) % 64 < 64
      omega
    have hstep : rxFill s (b :: bs) = rxFill (recv b s) bs := rfl
    obtain ⟨e1, e2⟩ := ih (recv b s) hh'
    rw [hstep]
    constructor
    · rw [e1]
      show ((s.rxHead + 1) % 64 + bs.length) % 64 = (s.rxHead + (b :: bs).length) % 64
      simp only [List.length_cons]
      omega
    · exact e2

set_option maxRecDepth 4000 in
/-- C3 counterexample: pushing 64 bytes and then one more into the empty
RX buffer through the producer path leaves `available()` at 1, not 63. -/
theorem C3_overflow_count_cex :
    ¬ (available (rxFill mkUART (List.range 65)) = 63) := by decide

/-- C3 amended: pushing 64 bytes and then one more via the producer path
into an empty RX buffer results in the buffer reporting
`count()/available() == 1`, and the oldest pushed byte is no longer
retrievable by `read()`: the one retrievable byte is the newest (65th)
pushed byte, which has overwritten the oldest. -/
theorem C3_overflow (bs : List Nat) (s : UARTState)
    (hh : s.rxHead < 64) (he : s.rxHead = s.rxTail)
    (hlen : bs.length = 65) (hb : ∀ x ∈ bs, x < 256) :
    available (rxFill s bs) = 1 ∧
    (read (rxFill s bs)).1 = bs.getLastD 0 := by
  rcases List.eq_nil_or_concat bs with hnil | ⟨L, b, hLb⟩
  · rw [hnil] at hlen
    simp at hlen
  · have hLb' : bs = L ++ [b] := by simpa using hLb
    have hlenL : L.length = 64 := by
      rw [hLb'] at hlen
      simp at hlen
      omega
    have hfl : rxFill s bs = recv b (rxFill s L) := by
      rw [hLb']
      show (L ++ [b]).foldl (fun t x => recv x t) s = _
      rw [List.foldl_append]
      rfl
    obtain ⟨e1, e2⟩ := rxFill_idx L s hh
    rw [hlenL] at e1
    have hS1h : (rxFill s L).rxHead = s.rxHead := by
      rw [e1]
      omega
    have hS1t : (rxFill s L).rxTail = s.rxHead := by
      rw [e2, he]
    have hbv : b < 256 := hb b (by rw [hLb']; simp)
    have hlast : bs.getLastD 0 = b := by
      rw [hLb']
      simp
    rw [hfl, hlast]
    constructor
    · show (64 + ((rxFill s L).rxHead + 1) % 64 - (rxFill s L).rxTail) % 64 = 1
      rw [hS1h, hS1t]
      omega
    · have hne : ¬ ((recv b (rxFill s L)).rxHead = (recv b (rxFill s L)).rxTail) := by
        show ¬ (((rxFill s L).rxHead + 1) % 64 = (rxFill s L).rxTail)
        rw [hS1h, hS1t]
        omega
      show (read (recv b (rxFill s L))).1 = b
      unfold read
      rw [if_neg hne]
      show Function.update (rxFill s L).rxBuffer (rxFill s L).rxHead (b % 256)
          ((rxFill s L).rxTail) = b
      rw [hS1h, hS1t, Function.update_same]
      omega

/-- Instantiation of `C3_overflow` at 65 concrete bytes. -/
theorem C3_overflow_witness :
    available (rxFill mkUART (List.range 65)) = 1 ∧
    (read (rxFill mkUART (List.range 65))).1 = (List.range 65).getLastD 0 :=
  C3_overflow (List.range 65) mkUART (by decide) rfl (by decide) (by decide)

/-- C4 counterexample: `flush` does not set the RX tail to the RX head
with the head unchanged; on a state with rxHead = 5 and rxTail = 2 the
flushed state has rxTail = 2 and rxHead = 2. -/
theorem C4_flush_cex :
    ¬ ((flush rxSample).rxTail = rxSample.rxHead ∧
       (flush rxSample).rxHead = rxSample.rxHead ∧
       available (flush rxSample) = 0) := by decide

/-- C4 amended: for every driver state, `flush()` (the spec's `clear()`)
sets the RX head index equal to the RX tail index, leaving the tail index
unchanged, without reading any buffered byte; afterwards
`count()/available() == 0` regardless of prior state. -/
theorem C4_flush (s : UARTState) :
    flush s = { s with rxHead := s.rxTail } ∧ available (flush s) = 0 := by
  refine ⟨rfl, ?_⟩
  show (64 + s.rxTail - s.rxTail) % 64 = 0
  omega

/-- C5: a `begin()` call on a driver that has already begun returns 0 and
leaves every register and every piece of driver state unchanged; a
successful `begin()` leaves the driver with `began = 1`, so a second call
is such a no-op; an `end()` call on a stopped driver returns 0 and leaves
everything unchanged. -/
theorem C5_lifecycle :
    (∀ (F b : Nat) (s : UARTState), s.began ≠ 0 → begin F s b = (0, s)) ∧
    (∀ (F b : Nat) (s : UARTState), s.began = 0 → ((begin F s b).2).began = 1) ∧
    (∀ s : UARTState, s.began = 0 → endUART s = (0, s)) := by
  refine ⟨?_, ?_, ?_⟩
  · intro F b s h
    unfold begin
    rw [if_pos h]
  · intro F b s h
    unfold begin
    rw [if_neg (not_not_intro h)]
  · intro s h
    unfold endUART
    rw [if_pos h]

/-- Instantiation of `C5_lifecycle` at concrete states. -/
theorem C5_lifecycle_witness :
    ranSample.began ≠ 0 ∧ begin 16000000 ranSample 9600 = (0, ranSample) ∧
    ((begin 16000000 mkUART 9600).2).began = 1 ∧
    endUART mkUART = (0, mkUART) :=
  ⟨by decide, C5_lifecycle.1 16000000 9600 ranSample (by decide),
   C5_lifecycle.2.1 16000000 9600 mkUART rfl,
   C5_lifecycle.2.2 mkUART rfl⟩

/-- C6: `read()` on an empty RX buffer (rxHead = rxTail) returns the
sentinel 0 and leaves the whole driver state unchanged; on a non-empty
buffer it returns the byte stored at rxTail and advances rxTail by one
modulo 64, changing nothing else. -/
theorem C6_read_sentinel :
    (∀ s : UARTState, s.rxHead = s.rxTail → read s = (0, s)) ∧
    (∀ s : UARTState, s.rxHead ≠ s.rxTail →
      read s = (s.rxBuffer s.rxTail, { s with rxTail := (s.rxTail + 1) % 64 })) := by
  constructor
  · intro s h
    unfold read
    rw [if_pos h]
  · intro s h
    unfold read
    rw [if_neg h]
    rfl

/-- Instantiation of `C6_read_sentinel` at concrete states. -/
theorem C6_read_sentinel_witness :
    read mkUART = (0, mkUART) ∧
    rxSample.rxHead ≠ rxSample.rxTail ∧
    read rxSample = (rxSample.rxBuffer rxSample.rxTail,
      { rxSample with rxTail := (rxSample.rxTail + 1) % 64 }) :=
  ⟨C6_read_sentinel.1 mkUART rfl, by decide,
   C6_read_sentinel.2 rxSample (by decide)⟩

/-- C7: when the TX buffer is non-empty, `isrUDRE()` writes the byte at
txTail to the data register and advances txTail by one modulo 64, leaving
UCSR0B (hence the UDRIE bit) and everything else unchanged; when the TX
buffer is empty, it clears the UDRIE bit of UCSR0B and leaves both TX
indices and the TX buffer unchanged. -/
theorem C7_isrUDRE :
    (∀ s : UARTState, s.txHead ≠ s.txTail →
      isrUDRE s = (some (s.txBuffer s.txTail),
        { s with udr := s.txBuffer s.txTail, txTail := (s.txTail + 1) % 64 }) ∧
      ((isrUDRE s).2).ucsrb = s.ucsrb) ∧
    (∀ s : UARTState, s.txHead = s.txTail →
      isrUDRE s = (none, { s with ucsrb := s.ucsrb &&& 223 }) ∧
      ((isrUDRE s).2).ucsrb.testBit 5 = false ∧
      ((isrUDRE s).2).txHead = s.txHead ∧ ((isrUDRE s).2).txTail = s.txTail ∧
      ((isrUDRE s).2).txBuffer = s.txBuffer) := by
  constructor
  · intro s h
    have he : isrUDRE s = (some (s.txBuffer s.txTail),
        { s with udr := s.txBuffer s.txTail, txTail := (s.txTail + 1) % 64 }) := by
      unfold isrUDRE
      rw [if_pos h]
      rfl
    exact ⟨he, by rw [he]⟩
  · intro s h
    have he : isrUDRE s = (none, { s with ucsrb := s.ucsrb &&& 223 }) := by
      unfold isrUDRE
      rw [if_neg (not_not_intro h)]
    refine ⟨he, ?_, by rw [he], by rw [he], by rw [he]⟩
    rw [he]
    show (s.ucsrb &&& 223).testBit 5 = false
    simp [Nat.testBit_land]
    intro h5
    decide

/-- Instantiation of `C7_isrUDRE` at concrete states. -/
theorem C7_isrUDRE_witness :
    (txSample.txHead ≠ txSample.txTail ∧
      isrUDRE txSample = (some (txSample.txBuffer txSample.txTail),
        { txSample with udr := txSample.txBuffer txSample.txTail,
                        txTail := (txSample.txTail + 1) % 64 }) ∧
      ((isrUDRE txSample).2).ucsrb = txSample.ucsrb) ∧
    (isrUDRE ranSample = (none, { ranSample with ucsrb := ranSample.ucsrb &&& 223 }) ∧
      ((isrUDRE ranSample).2).ucsrb.testBit 5 = false ∧
      ((isrUDRE ranSample).2).txHead = ranSample.txHead ∧
      ((isrUDRE ranSample).2).txTail = ranSample.txTail ∧
      ((isrUDRE ranSample).2).txBuffer = ranSample.txBuffer) :=
  ⟨⟨by decide, C7_isrUDRE.1 txSample (by decide)⟩,
   C7_isrUDRE.2 ranSample rfl⟩

/-- C8: immediately after construction of a driver instance the lifecycle
flag is Stopped (`began = 0`), all four head/tail indices are zero, and
both ring buffers hold only zero bytes. -/
theorem C8_initial_state :
    mkUART.began = 0 ∧
    mkUART.rxHead = 0 ∧ mkUART.rxTail = 0 ∧
    mkUART.txHead = 0 ∧ mkUART.txTail = 0 ∧
    (∀ i, mkUART.rxBuffer i = 0) ∧ (∀ i, mkUART.txBuffer i = 0) :=
  ⟨rfl, rfl, rfl, rfl, rfl, fun _ => rfl, fun _ => rfl⟩

/-- C10: every public operation and both interrupt handlers preserve the
invariant that the four ring-buffer indices lie in [0, 64): each index is
only ever assigned a value reduced modulo the buffer size or copied from
another in-range index. -/
theorem C10_index_invariant (s : UARTState) (h : idxInv s) (F baud b n : Nat) :
    idxInv (begin F s baud).2 ∧ idxInv (endUART s).2 ∧ idxInv (flush s) ∧
    idxInv (read s).2 ∧ idxInv (write s n) ∧ idxInv (recv b s) ∧
    idxInv (isrUDRE s).2 := by
  obtain ⟨h1, h2, h3, h4⟩ := h
  refine ⟨?_, ?_, ?_, ?_, ?_, ?_, ?_⟩
  · by_cases hb : s.began ≠ 0
    · rw [begin_already F baud s hb, sndPair]
      exact ⟨h1, h2, h3, h4⟩
    · rw [begin_go F baud s hb, sndPair]
      exact ⟨h1, h2, h3, h4⟩
  · by_cases hb : s.began = 0
    · rw [endUART_stopped s hb, sndPair]
      exact ⟨h1, h2, h3, h4⟩
    · rw [endUART_go s hb, sndPair]
      exact ⟨h2, h2, h3, h4⟩
  · exact ⟨h2, h2, h3, h4⟩
  · by_cases hb : s.rxHead = s.rxTail
    · rw [read_empty_eq s hb, sndPair]
      exact ⟨h1, h2, h3, h4⟩
    · rw [read_nonempty_eq s hb, sndPair]
      refine ⟨h1, ?_, h3, h4⟩
      show (s.rxTail + 1) % 64 < 64
      omega
  · refine ⟨h1, h2, ?_, h4⟩
    show (s.txHead + 1) % 64 < 64
    omega
  · refine ⟨?_, h2, h3, h4⟩
    show (s.rxHead + 1) % 64 < 64
    omega
  · by_cases hb : s.txHead ≠ s.txTail
    · rw [udre_nonempty_eq s hb, sndPair]
      refine ⟨h1, h2, h3, ?_⟩
      show (s.txTail + 1) % 64 < 64
      omega
    · rw [udre_empty_eq s hb, sndPair]
      exact ⟨h1, h2, h3, h4⟩

/-- Instantiation of `C10_index_invariant` at a concrete state. -/
theorem C10_index_invariant_witness :
    idxInv (begin 16000000 rxSample 9600).2 ∧ idxInv (endUART rxSample).2 ∧
    idxInv (flush rxSample) ∧ idxInv (read rxSample).2 ∧
    idxInv (write rxSample 65) ∧ idxInv (recv 66 rxSample) ∧
    idxInv (isrUDRE rxSample).2 :=
  C10_index_invariant rxSample (by decide) 16000000 9600 66 65

lemma decAscii_lt (n : Nat) (h : n < 10) : decAscii n = [n + 48] := by
  unfold decAscii
  by_cases h0 : n = 0
  · rw [if_pos h0, h0]
  · rw [if_neg h0]
    rw [Nat.digits_def' (by norm_num : (1:Nat) < 10) (Nat.pos_of_ne_zero h0)]
    have hq : n / 10 = 0 := by omega
    rw [hq]
    simp [Nat.mod_eq_of_lt h]

lemma decAscii_ge (n : Nat) (h : 10 ≤ n) :
    decAscii n = decAscii (n / 10) ++ [n % 10 + 48] := by
  unfold decAscii
  rw [if_neg (by omega : ¬ n = 0), if_neg (by omega : ¬ n / 10 = 0)]
  rw [Nat.digits_def' (by norm_num : (1:Nat) < 10) (by omega : 0 < n)]
  simp

lemma printU32_step (n : Nat) (h10 : 10 ≤ n) (hlt : n < 10000000000) :
    printU32 n = printU32 (n / 10) ++ [n % 10 + 48] := by
  unfold printU32
  rw [if_neg (by omega : ¬ n / 10 > 999999999)]
  rw [if_pos (by omega : n > 9)]
  rw [if_congr (by omega : (n > 999999999) ↔ (n / 10 > 99999999))
      (by rw [(by omega : n / 1000000000 = n / 10 / 100000000)]) rfl]
  rw [if_congr (by omega : (n > 99999999) ↔ (n / 10 > 9999999))
      (by rw [(by omega : n / 100000000 = n / 10 / 10000000)]) rfl]
  rw [if_congr (by omega : (n > 9999999) ↔ (n / 10 > 999999))
      (by rw [(by omega : n / 10000000 = n / 10 / 1000000)]) rfl]
  rw [if_congr (by omega : (n > 999999) ↔ (n / 10 > 99999))
      (by rw [(by omega : n / 1000000 = n / 10 / 100000)]) rfl]
  rw [if_congr (by omega : (n > 99999) ↔ (n / 10 > 9999))
      (by rw [(by omega : n / 100000 = n / 10 / 10000)]) rfl]
  rw [if_congr (by omega : (n > 9999) ↔ (n / 10 > 999))
      (by rw [(by omega : n / 10000 = n / 10 / 1000)]) rfl]
  rw [if_congr (by omega : (n > 999) ↔ (n / 10 > 99))
      (by rw [(by omega : n / 1000 = n / 10 / 100)]) rfl]
  rw [if_congr (by omega : (n > 99) ↔ (n / 10 > 9))
      (by rw [(by omega : n / 100 = n / 10 / 10)]) rfl]
  simp [List.append_assoc]

lemma printU32_decAscii : ∀ n : Nat, n < 10000000000 → printU32 n = decAscii n := by
  intro n
  induction n using Nat.strong_induction_on with
  | _ n ih =>
    intro h
    by_cases h10 : n < 10
    · unfold printU32
      rw [if_neg (by omega : ¬ n > 999999999), if_neg (by omega : ¬ n > 99999999),
          if_neg (by omega : ¬ n > 9999999), if_neg (by omega : ¬ n > 999999),
          if_neg (by omega : ¬ n > 99999), if_neg (by omega : ¬ n > 9999),
          if_neg (by omega : ¬ n > 999), if_neg (by omega : ¬ n > 99),
          if_neg (by omega : ¬ n > 9)]
      rw [decAscii_lt n h10]
      simp [Nat.mod_eq_of_lt h10]
    · rw [printU32_step n (by omega) h, decAscii_ge n (by omega),
          ih (n / 10) (by omega) (by omega)]

lemma printU8_eq_printU32 (n : Nat) (h : n < 1000) : printU8 n = printU32 n := by
  unfold printU8 printU32
  rw [if_neg (by omega : ¬ n > 999999999), if_neg (by omega : ¬ n > 99999999),
      if_neg (by omega : ¬ n > 9999999), if_neg (by omega : ¬ n > 999999),
      if_neg (by omega : ¬ n > 99999), if_neg (by omega : ¬ n > 9999),
      if_neg (by omega : ¬ n > 999)]
  simp

lemma printU16_eq_printU32 (n : Nat) (h : n < 100000) : printU16 n = printU32 n := by
  unfold printU16 printU32
  rw [if_neg (by omega : ¬ n > 999999999), if_neg (by omega : ¬ n > 99999999),
      if_neg (by omega : ¬ n > 9999999), if_neg (by omega : ¬ n > 999999),
      if_neg (by omega : ¬ n > 99999)]
  simp

/-- C9: every integer print overload emits the value's decimal ASCII
representation with no leading zeros (a single '0' for zero), and every
negative signed value is emitted as '-' followed by the decimal digits of
its absolute value, for all values of the respective C argument type. -/
theorem C9_print_decimal :
    (∀ n : Nat, n < 256 → printU8 n = decAscii n) ∧
    (∀ n : Nat, n < 65536 → printU16 n = decAscii n) ∧
    (∀ n : Nat, n < 4294967296 → printU32 n = decAscii n) ∧
    (∀ i : Int, -128 ≤ i → i < 128 → printI8 i = decAsciiInt i) ∧
    (∀ i : Int, -32768 ≤ i → i < 32768 → printI16 i = decAsciiInt i) ∧
    (∀ i : Int, -2147483648 ≤ i → i < 2147483648 → printI32 i = decAsciiInt i) := by
  have hu8 : ∀ n : Nat, n < 256 → printU8 n = decAscii n := by
    intro n h
    rw [printU8_eq_printU32 n (by omega), printU32_decAscii n (by omega)]
  have hu16 : ∀ n : Nat, n < 65536 → printU16 n = decAscii n := by
    intro n h
    rw [printU16_eq_printU32 n (by omega), printU32_decAscii n (by omega)]
  have hu32 : ∀ n : Nat, n < 4294967296 → printU32 n = decAscii n := by
    intro n h
    rw [printU32_decAscii n (by omega)]
  refine ⟨hu8, hu16, hu32, ?_, ?_, ?_⟩
  · intro i hl hr
    unfold printI8 decAsciiInt
    by_cases hneg : i < 0
    · rw [if_pos hneg, if_pos hneg]
      have hb : (-i).toNat < 256 := by omega
      rw [Nat.mod_eq_of_lt hb]
      rw [hu8 _ hb]
    · rw [if_neg hneg, if_neg hneg]
      have hb : i.toNat < 256 := by omega
      rw [Nat.mod_eq_of_lt hb]
      exact hu8 _ hb
  · intro i hl hr
    unfold printI16 decAsciiInt
    by_cases hneg : i < 0
    · rw [if_pos hneg, if_pos hneg]
      have hb : (-i).toNat < 65536 := by omega
      rw [Nat.mod_eq_of_lt hb]
      rw [hu16 _ hb]
    · rw [if_neg hneg, if_neg hneg]
      have hb : i.toNat < 65536 := by omega
      rw [Nat.mod_eq_of_lt hb]
      exact hu16 _ hb
  · intro i hl hr
    unfold printI32 decAsciiInt
    by_cases hneg : i < 0
    · rw [if_pos hneg, if_pos hneg]
      have hb : (-i).toNat < 4294967296 := by omega
      rw [Nat.mod_eq_of_lt hb]
      rw [hu32 _ hb]
    · rw [if_neg hneg, if_neg hneg]
      have hb : i.toNat < 4294967296 := by omega
      rw [Nat.mod_eq_of_lt hb]
      exact hu32 _ hb

/-- Instantiation of `C9_print_decimal` at edge values of every overload. -/
theorem C9_print_decimal_witness :
    printU8 255 = decAscii 255 ∧
    printU16 65535 = decAscii 65535 ∧
    printU32 4294967295 = decAscii 4294967295 ∧
    printI8 (-128) = decAsciiInt (-128) ∧
    printI16 (-32768) = decAsciiInt (-32768) ∧
    printI32 (-2147483648) = decAsciiInt (-2147483648) :=
  ⟨C9_print_decimal.1 255 (by norm_num),
   C9_print_decimal.2.1 65535 (by norm_num),
   C9_print_decimal.2.2.1 4294967295 (by norm_num),
   C9_print_decimal.2.2.2.1 (-128) (by norm_num) (by norm_num),
   C9_print_decimal.2.2.2.2.1 (-32768) (by norm_num) (by norm_num),
   C9_print_decimal.2.2.2.2.2 (-2147483648) (by norm_num) (by norm_num)⟩

end UART
